import Mathlib

/-! Product directory service (`src/2/app.js`).

A shallow embedding of the Express handlers of `src/2/app.js` and of the
process-wide `products` array they read and mutate.  Every handler is a pure
function from the request data and the collection before the call to the reply
and the collection after the call.

* JavaScript numbers are `JSNumber`: `NaN`, the two infinities, or a finite
  value.  Every finite double is a rational and the comparisons of doubles
  agree with those of the rationals they denote, so finite values are `ℚ`.
* Request body fields are `JSValue`s; a key that is absent from the body
  destructures to `undefined`.
* A handler either sends a JSON response (`Reply.json`) or throws
  (`Reply.typeError`, calling `.trim()` on a value that has no such method).
-/

namespace ProductService

/-! ## Values -/

/-- A JavaScript number.  The two zeros `+0` and `-0`, which nothing the service
does tells apart (`===`, `<=`, `>=`, truthiness, the JSON output), are both
`fin 0`. -/
inductive JSNumber where
  | nan
  | negInf
  | fin (q : ℚ)
  | posInf
  deriving DecidableEq, Repr

namespace JSNumber

/-- The JavaScript comparison `a <= b`. -/
def le : JSNumber → JSNumber → Bool
  | nan, _ => false
  | _, nan => false
  | negInf, _ => true
  | _, posInf => true
  | fin a, fin b => decide (a ≤ b)
  | fin _, negInf => false
  | posInf, _ => false

/-- The JavaScript comparison `a >= b`. -/
def ge (a b : JSNumber) : Bool := le b a

/-- The JavaScript comparison `a > b`. -/
def gt : JSNumber → JSNumber → Bool
  | nan, _ => false
  | _, nan => false
  | posInf, posInf => false
  | posInf, _ => true
  | negInf, _ => false
  | fin _, negInf => true
  | fin _, posInf => false
  | fin a, fin b => decide (b < a)

/-- The JavaScript strict equality `a === b` on numbers: `NaN` equals nothing. -/
def strictEq : JSNumber → JSNumber → Bool
  | nan, _ => false
  | _, nan => false
  | a, b => decide (a = b)

/-- The JavaScript `ToBoolean` of a number: `0` and `NaN` are falsy. -/
def truthy : JSNumber → Bool
  | nan => false
  | fin q => decide (q ≠ 0)
  | _ => true

end JSNumber

/-- A JavaScript value as it can occur in a parsed request body.  `undefined`
is what destructuring gives for a key the body does not have. -/
inductive JSValue where
  | undefined
  | null
  | bool (b : Bool)
  | number (n : JSNumber)
  | string (s : String)
  | array (items : List JSValue)
  | object (fields : List (String × JSValue))

namespace JSValue

/-- The JavaScript `ToBoolean`: `undefined`, `null`, `false`, `0`, `NaN` and
the empty string are falsy, everything else (arrays and objects too) is
truthy. -/
def truthy : JSValue → Bool
  | undefined => false
  | null => false
  | bool b => b
  | number n => n.truthy
  | string s => !s.data.isEmpty
  | array _ => true
  | object _ => true

/-- The test `v !== undefined`. -/
def isDefined : JSValue → Bool
  | undefined => false
  | _ => true

/-- The number behind a value for which `typeof v === 'number'`. -/
def asNumber? : JSValue → Option JSNumber
  | number n => some n
  | _ => none

/-- A value as `JSON.parse` can produce it: numbers are never `NaN`. -/
def isJSON : JSValue → Bool
  | number .nan => false
  | _ => true

end JSValue

/-! ## Strings -/

/-- The code points `String.prototype.trim` strips: ECMAScript `WhiteSpace`
and `LineTerminator`. -/
def isJSWhitespace (c : Char) : Bool :=
  c.val = 0x09 || c.val = 0x0A || c.val = 0x0B || c.val = 0x0C || c.val = 0x0D ||
  c.val = 0x20 || c.val = 0xA0 || c.val = 0x1680 ||
  (0x2000 ≤ c.val && c.val ≤ 0x200A) ||
  c.val = 0x2028 || c.val = 0x2029 || c.val = 0x202F || c.val = 0x205F ||
  c.val = 0x3000 || c.val = 0xFEFF

/-- Drops the leading whitespace of a list of characters. -/
def trimStart (cs : List Char) : List Char := cs.dropWhile isJSWhitespace

/-- The JavaScript `s.trim()`. -/
def jsTrim (s : String) : String :=
  ⟨(trimStart (trimStart s.data).reverse).reverse⟩

/-- The call `v.trim()`: the trimmed string for a string, a thrown `TypeError`
(`none`) for every other value. -/
def JSValue.trim? : JSValue → Option String
  | .string s => some (jsTrim s)
  | _ => none

/-! ## Data model -/

/-- A product record `{id, name, price}` of the collection. -/
structure Product where
  id : JSNumber
  name : String
  price : JSNumber
  deriving DecidableEq, Repr

/-- The process-wide `products` array at startup. -/
def seed : List Product :=
  [ { id := .fin 1, name := "Смартфон XYZ Pro", price := .fin 24990 },
    { id := .fin 2, name := "Ноутбук UltraBook 15", price := .fin 54990 },
    { id := .fin 3, name := "Планшет Tab S8", price := .fin 35990 },
    { id := .fin 4, name := "Наушники AirSound", price := .fin 4990 } ]

/-- The fields `{ name, price }` destructured from `req.body`. -/
structure Body where
  name : JSValue
  price : JSValue

/-- The error texts of the service. -/
inductive ErrorMessage where
  /-- The text "Необходимо указать название и стоимость товара" (create). -/
  | nameAndPriceRequired
  /-- The text "При полном обновлении необходимо указать название и стоимость"
  (replace). -/
  | fullUpdateRequiresNameAndPrice
  /-- The text "Стоимость должна быть положительным числом". -/
  | priceMustBePositive
  /-- The text "Товар не найден". -/
  | productNotFound
  deriving DecidableEq, Repr

/-- The JSON body of a response. -/
inductive Payload where
  | product (p : Product)
  | products (ps : List Product)
  | error (e : ErrorMessage)
  /-- The object with the message "Товар успешно удален" and `deletedId`. -/
  | deleted (deletedId : JSNumber)
  deriving DecidableEq, Repr

/-- What a handler does with a request: it sends a JSON response with a status,
or it throws a `TypeError` before sending anything. -/
inductive Reply where
  | json (status : Nat) (body : Payload)
  | typeError
  deriving DecidableEq, Repr

/-- The status of a reply, when a response was sent. -/
def Reply.status? : Reply → Option Nat
  | .json s _ => some s
  | .typeError => none

/-! ## Handlers -/

/-- The handler `app.post('/products')`; `now` is the value of `Date.now()`. -/
def create (now : Int) (body : Body) (products : List Product) : Reply × List Product :=
  if !body.name.truthy || !body.price.truthy then
    (.json 400 (.error .nameAndPriceRequired), products)
  else
    match body.price.asNumber? with
    | none => (.json 400 (.error .priceMustBePositive), products)
    | some price =>
      if price.le (.fin 0) then
        (.json 400 (.error .priceMustBePositive), products)
      else
        match body.name.trim? with
        | none => (.typeError, products)
        | some name =>
          let newProduct : Product := { id := .fin now, name := name, price := price }
          (.json 201 (.product newProduct), products ++ [newProduct])

/-- A query parameter as the handler sees it.  `absent` and `empty` (the empty
string) are falsy; `supplied n` is any truthy value, `n` being the result of
`Number(...)` on it. -/
inductive QueryValue where
  | absent
  | empty
  | supplied (n : JSNumber)
  deriving DecidableEq, Repr

/-- The handler `app.get('/products')`. -/
def list (minPrice maxPrice : QueryValue) (products : List Product) : Reply × List Product :=
  let filteredProducts := products
  let filteredProducts :=
    match minPrice with
    | .supplied n => filteredProducts.filter (fun p => p.price.ge n)
    | _ => filteredProducts
  let filteredProducts :=
    match maxPrice with
    | .supplied n => filteredProducts.filter (fun p => p.price.le n)
    | _ => filteredProducts
  (.json 200 (.products filteredProducts), products)

/-- The handler `app.get('/products/:id')`; `id` is `Number(req.params.id)`. -/
def getOne (id : JSNumber) (products : List Product) : Reply × List Product :=
  match products.find? (fun p => p.id.strictEq id) with
  | none => (.json 404 (.error .productNotFound), products)
  | some product => (.json 200 (.product product), products)

/-- The JavaScript `Array.prototype.findIndex`: the index of the first element
satisfying `f`, or `-1`. -/
def findIndex (f : Product → Bool) : List Product → Int
  | [] => -1
  | p :: ps => if f p then 0 else if findIndex f ps = -1 then -1 else findIndex f ps + 1

/-- The handler `app.put('/products/:id')`; `id` is `Number(req.params.id)`. -/
def replace (id : JSNumber) (body : Body) (products : List Product) : Reply × List Product :=
  if !body.name.truthy || !body.price.truthy then
    (.json 400 (.error .fullUpdateRequiresNameAndPrice), products)
  else
    match body.price.asNumber? with
    | none => (.json 400 (.error .priceMustBePositive), products)
    | some price =>
      if price.le (.fin 0) then
        (.json 400 (.error .priceMustBePositive), products)
      else
        let productIndex := findIndex (fun p => p.id.strictEq id) products
        if productIndex = -1 then
          (.json 404 (.error .productNotFound), products)
        else
          match body.name.trim? with
          | none => (.typeError, products)
          | some name =>
            let updated : Product := { id := id, name := name, price := price }
            (.json 200 (.product updated), products.set productIndex.toNat updated)

/-- An assignment to a field of the object that `products.find(f)` returned:
the first element satisfying `f` becomes `g` of itself, in place. -/
def mutateFirst (f : Product → Bool) (g : Product → Product) : List Product → List Product
  | [] => []
  | p :: ps => if f p then g p :: ps else p :: mutateFirst f g ps

/-- The handler `app.patch('/products/:id')`; `id` is `Number(req.params.id)`.
The name is assigned before the price is validated. -/
def patch (id : JSNumber) (body : Body) (products : List Product) : Reply × List Product :=
  match products.find? (fun p => p.id.strictEq id) with
  | none => (.json 404 (.error .productNotFound), products)
  | some product =>
    let afterName : Option (Product × List Product) :=
      if body.name.isDefined then
        match body.name.trim? with
        | none => none
        | some name =>
          some ({ product with name := name },
            mutateFirst (fun p => p.id.strictEq id) (fun p => { p with name := name }) products)
      else some (product, products)
    match afterName with
    | none => (.typeError, products)
    | some (product, products) =>
      if body.price.isDefined then
        match body.price.asNumber? with
        | none => (.json 400 (.error .priceMustBePositive), products)
        | some price =>
          if price.le (.fin 0) then
            (.json 400 (.error .priceMustBePositive), products)
          else
            (.json 200 (.product { product with price := price }),
              mutateFirst (fun p => p.id.strictEq id) (fun p => { p with price := price }) products)
      else (.json 200 (.product product), products)

/-- The handler `app.delete('/products/:id')`; `id` is `Number(req.params.id)`. -/
def delete (id : JSNumber) (products : List Product) : Reply × List Product :=
  let productExists := products.any (fun p => p.id.strictEq id)
  if !productExists then
    (.json 404 (.error .productNotFound), products)
  else
    (.json 200 (.deleted id), products.filter (fun p => !p.id.strictEq id))

/-! ## The stated invariant -/

/-- A string has no leading and no trailing whitespace. -/
def noEdgeWhitespace (s : String) : Bool :=
  (match s.data.head? with
    | some c => !isJSWhitespace c
    | none => true) &&
  (match s.data.getLast? with
    | some c => !isJSWhitespace c
    | none => true)

/-- The invariant of the data model on one product: a non-empty name without
leading or trailing whitespace, and `price > 0`. -/
def Product.valid (p : Product) : Bool :=
  !p.name.data.isEmpty && noEdgeWhitespace p.name && p.price.gt (.fin 0)

/-- The part of the invariant the update handlers keep whatever the request:
a name without leading or trailing whitespace, and `price > 0`. -/
def Product.trimmedAndPriced (p : Product) : Bool :=
  noEdgeWhitespace p.name && p.price.gt (.fin 0)

/-- A body name that is stored as a non-empty name: if it is a string, trimming
it leaves at least one character. -/
def JSValue.notBlank : JSValue → Bool
  | .string s => !(jsTrim s).data.isEmpty
  | _ => true

/-- The two validations of create and replace, in the order of the source:
`name` and `price` are truthy, and `price` is a number that is not `<= 0`. -/
def Body.passesValidation (body : Body) : Bool :=
  !(!body.name.truthy || !body.price.truthy) &&
  (match body.price.asNumber? with
    | none => false
    | some price => !price.le (.fin 0))

/-- The constraint the spec states for list: `minPrice` is absent or
`price >= minPrice`, and `maxPrice` is absent or `price <= maxPrice`. -/
def withinFilters (minPrice maxPrice : QueryValue) (p : Product) : Bool :=
  (match minPrice with
    | .supplied n => p.price.ge n
    | _ => true) &&
  (match maxPrice with
    | .supplied n => p.price.le n
    | _ => true)

/-- The first narrowing step of list on its own: the items with
`price >= minPrice` when `minPrice` is truthy. -/
def narrowByMin (minPrice : QueryValue) (l : List Product) : List Product :=
  match minPrice with
  | .supplied n => l.filter (fun p => p.price.ge n)
  | _ => l

/-- The second narrowing step of list on its own: the items with
`price <= maxPrice` when `maxPrice` is truthy. -/
def narrowByMax (maxPrice : QueryValue) (l : List Product) : List Product :=
  match maxPrice with
  | .supplied n => l.filter (fun p => p.price.le n)
  | _ => l

/-- The position `i` holds `p`, `p` satisfies `f`, and no earlier position
holds an element satisfying `f`: `p` is the first match of `f` in `l`. -/
def FirstAt (f : Product → Bool) (l : List Product) (i : Nat) (p : Product) : Prop :=
  l[i]? = some p ∧ f p = true ∧ ∀ j, j < i → ∀ q, l[j]? = some q → f q = false

/-! ## Lemmas on numbers and strings -/

theorem JSNumber.gt_zero_of_not_le {n : JSNumber} (hn : n ≠ .nan)
    (h : n.le (.fin 0) = false) : n.gt (.fin 0) = true := by
  cases n with
  | nan => exact absurd rfl hn
  | negInf => simp [JSNumber.le] at h
  | posInf => rfl
  | fin q => simpa [JSNumber.le, JSNumber.gt] using h

theorem JSNumber.ne_nan_of_truthy {v : JSValue} {n : JSNumber}
    (hv : v.asNumber? = some n) (ht : v.truthy = true) : n ≠ .nan := by
  cases v <;> simp [JSValue.asNumber?] at hv
  subst hv
  rintro rfl
  simp [JSValue.truthy, JSNumber.truthy] at ht

theorem JSNumber.ne_nan_of_isJSON {v : JSValue} {n : JSNumber}
    (hv : v.asNumber? = some n) (hj : v.isJSON = true) : n ≠ .nan := by
  cases v <;> simp [JSValue.asNumber?] at hv
  subst hv
  rintro rfl
  simp [JSValue.isJSON] at hj

theorem JSNumber.eq_of_strictEq {a b : JSNumber} (h : a.strictEq b = true) : a = b := by
  cases a <;> cases b <;> simp_all [JSNumber.strictEq]

theorem JSNumber.strictEq_of_eq {a b : JSNumber} (hb : b ≠ .nan) (h : a = b) :
    a.strictEq b = true := by
  subst h
  cases a <;> simp_all [JSNumber.strictEq]

theorem JSNumber.ne_nan_of_strictEq {a b : JSNumber} (h : a.strictEq b = true) : b ≠ .nan := by
  cases a <;> cases b <;> simp_all [JSNumber.strictEq]

theorem head?_trimStart (cs : List Char) (c : Char) (h : (trimStart cs).head? = some c) :
    isJSWhitespace c = false := by
  induction cs with
  | nil => simp [trimStart] at h
  | cons a as ih =>
    unfold trimStart at h ih
    rw [List.dropWhile_cons] at h
    by_cases ha : isJSWhitespace a = true
    · rw [if_pos ha] at h
      exact ih h
    · rw [if_neg ha] at h
      simp only [List.head?_cons, Option.some.injEq] at h
      subst h
      simpa using ha

theorem trimStart_suffix (cs : List Char) : ∃ pre, cs = pre ++ trimStart cs := by
  refine ⟨cs.takeWhile isJSWhitespace, ?_⟩
  unfold trimStart
  exact (List.takeWhile_append_dropWhile _ cs).symm

theorem noEdgeWhitespace_jsTrim (s : String) : noEdgeWhitespace (jsTrim s) = true := by
  have hlast : ∀ c, (trimStart (trimStart s.data).reverse).head? = some c →
      isJSWhitespace c = false := head?_trimStart _
  have hfirst : ∀ c, (trimStart (trimStart s.data).reverse).getLast? = some c →
      isJSWhitespace c = false := by
    intro c hc
    obtain ⟨pre, hpre⟩ := trimStart_suffix (trimStart s.data).reverse
    have hne : trimStart (trimStart s.data).reverse ≠ [] := by
      intro h0
      rw [h0] at hc
      simp at hc
    have h1 : (trimStart s.data).reverse.getLast? = some c := by
      rw [hpre, List.getLast?_append_of_ne_nil _ hne]
      exact hc
    rw [List.getLast?_reverse] at h1
    exact head?_trimStart _ _ h1
  unfold noEdgeWhitespace jsTrim
  simp only [List.head?_reverse, List.getLast?_reverse, Bool.and_eq_true]
  constructor
  · cases hc : (trimStart (trimStart s.data).reverse).getLast? with
    | none => rfl
    | some c => simp [hfirst c hc]
  · cases hc : (trimStart (trimStart s.data).reverse).head? with
    | none => rfl
    | some c => simp [hlast c hc]

/-! ## Lemmas on the collection -/

theorem forall_mutateFirst {P : Product → Prop} (f : Product → Bool) (g : Product → Product)
    (l : List Product) (h : ∀ p ∈ l, P p) (hg : ∀ p, P p → P (g p)) :
    ∀ p ∈ mutateFirst f g l, P p := by
  induction l with
  | nil => simp [mutateFirst]
  | cons a as ih =>
    intro p hp
    unfold mutateFirst at hp
    split at hp
    · rcases List.mem_cons.mp hp with rfl | hp
      · exact hg a (h a (List.mem_cons_self _ _))
      · exact h p (List.mem_cons_of_mem _ hp)
    · rcases List.mem_cons.mp hp with rfl | hp
      · exact h p (List.mem_cons_self _ _)
      · exact ih (fun q hq => h q (List.mem_cons_of_mem _ hq)) p hp

/-- The name and price property `N p.name ∧ p.price > 0` of every product is
kept by create when the trimmed body name satisfies `N`. -/
theorem create_keeps (N : String → Prop) (now : Int) (body : Body) (c : List Product)
    (hN : ∀ s, body.name = .string s → N (jsTrim s))
    (h : ∀ p ∈ c, N p.name ∧ p.price.gt (.fin 0) = true) :
    ∀ p ∈ (create now body c).2, N p.name ∧ p.price.gt (.fin 0) = true := by
  unfold create
  split
  · exact h
  · rename_i hreq
    simp only [Bool.or_eq_true, Bool.not_eq_true', not_or, Bool.not_eq_false] at hreq
    split
    · exact h
    · rename_i price hprice
      split
      · exact h
      · rename_i hle
        split
        · exact h
        · rename_i name hname
          intro p hp
          rcases List.mem_append.mp hp with hp | hp
          · exact h p hp
          · simp only [List.mem_singleton] at hp
            subst hp
            refine ⟨?_, JSNumber.gt_zero_of_not_le
              (JSNumber.ne_nan_of_truthy hprice hreq.2) (by simpa using hle)⟩
            cases hb : body.name <;> rw [hb] at hname <;> simp [JSValue.trim?] at hname
            subst hname
            exact hN _ hb

/-- The name and price property of every product is kept by replace when the
trimmed body name satisfies `N`. -/
theorem replace_keeps (N : String → Prop) (id : JSNumber) (body : Body) (c : List Product)
    (hN : ∀ s, body.name = .string s → N (jsTrim s))
    (h : ∀ p ∈ c, N p.name ∧ p.price.gt (.fin 0) = true) :
    ∀ p ∈ (replace id body c).2, N p.name ∧ p.price.gt (.fin 0) = true := by
  unfold replace
  split
  · exact h
  · rename_i hreq
    simp only [Bool.or_eq_true, Bool.not_eq_true', not_or, Bool.not_eq_false] at hreq
    split
    · exact h
    · rename_i price hprice
      split
      · exact h
      · rename_i hle
        dsimp only
        split
        · exact h
        · split
          · exact h
          · rename_i name hname
            intro p hp
            rcases List.mem_or_eq_of_mem_set hp with hp | hp
            · exact h p hp
            · subst hp
              refine ⟨?_, JSNumber.gt_zero_of_not_le
                (JSNumber.ne_nan_of_truthy hprice hreq.2) (by simpa using hle)⟩
              cases hb : body.name <;> rw [hb] at hname <;> simp [JSValue.trim?] at hname
              subst hname
              exact hN _ hb

/-- The name and price property of every product is kept by patch when the
trimmed body name satisfies `N` and the body price is not `NaN`. -/
theorem patch_keeps (N : String → Prop) (id : JSNumber) (body : Body) (c : List Product)
    (hjson : body.price.isJSON = true)
    (hN : ∀ s, body.name = .string s → N (jsTrim s))
    (h : ∀ p ∈ c, N p.name ∧ p.price.gt (.fin 0) = true) :
    ∀ p ∈ (patch id body c).2, N p.name ∧ p.price.gt (.fin 0) = true := by
  unfold patch
  split
  · exact h
  · rename_i product hfind
    have hnameStep : ∀ name, body.name.trim? = some name →
        ∀ p ∈ mutateFirst (fun p => p.id.strictEq id) (fun p => { p with name := name }) c,
          N p.name ∧ p.price.gt (.fin 0) = true := by
      intro name hname
      have hNn : N name := by
        cases hb : body.name <;> rw [hb] at hname <;> simp [JSValue.trim?] at hname
        subst hname
        exact hN _ hb
      exact forall_mutateFirst _ _ c h (fun p hp => ⟨hNn, hp.2⟩)
    have hpriceStep : ∀ (l : List Product) (price : JSNumber),
        (∀ p ∈ l, N p.name ∧ p.price.gt (.fin 0) = true) →
        body.price.asNumber? = some price → price.le (.fin 0) = false →
        ∀ p ∈ mutateFirst (fun p => p.id.strictEq id) (fun p => { p with price := price }) l,
          N p.name ∧ p.price.gt (.fin 0) = true := by
      intro l price hl hprice hle
      exact forall_mutateFirst _ _ l hl (fun p hp =>
        ⟨hp.1, JSNumber.gt_zero_of_not_le (JSNumber.ne_nan_of_isJSON hprice hjson) hle⟩)
    by_cases hdef : body.name.isDefined = true
    · simp only [hdef, if_true]
      cases hname : body.name.trim? with
      | none => exact h
      | some name =>
        simp only
        split
        · split
          · exact hnameStep name hname
          · rename_i price hprice
            split
            · exact hnameStep name hname
            · rename_i hle
              exact hpriceStep _ price (hnameStep name hname) hprice (by simpa using hle)
        · exact hnameStep name hname
    · simp only [hdef]
      simp only [Bool.false_eq_true, if_false]
      split
      · split
        · exact h
        · rename_i price hprice
          split
          · exact h
          · rename_i hle
            exact hpriceStep _ price h hprice (by simpa using hle)
      · exact h

/-! ## The invariant of the data model -/

theorem valid_iff (p : Product) :
    p.valid = true ↔
      (p.name.data.isEmpty = false ∧ noEdgeWhitespace p.name = true) ∧
        p.price.gt (.fin 0) = true := by
  simp [Product.valid]

theorem trimmedAndPriced_iff (p : Product) :
    p.trimmedAndPriced = true ↔
      noEdgeWhitespace p.name = true ∧ p.price.gt (.fin 0) = true := by
  simp [Product.trimmedAndPriced]

theorem notBlank_string {v : JSValue} (hv : v.notBlank = true) (s : String)
    (hs : v = .string s) :
    (jsTrim s).data.isEmpty = false ∧ noEdgeWhitespace (jsTrim s) = true := by
  subst hs
  exact ⟨by simpa [JSValue.notBlank] using hv, noEdgeWhitespace_jsTrim s⟩

/-- C1, as amended.  Whatever the request, create, replace and patch (patch
for a body whose price is not `NaN`, as every JSON body is) keep the property
that every product has a name without leading or trailing whitespace and a
price `> 0`.  When moreover the body name, if it is a string, does not trim to
the empty string, they keep the full invariant: every name is also
non-empty. -/
theorem invariant_kept (now : Int) (id : JSNumber) (body : Body) (c : List Product) :
    ((∀ p ∈ c, p.trimmedAndPriced = true) →
      (∀ p ∈ (create now body c).2, p.trimmedAndPriced = true) ∧
      (∀ p ∈ (replace id body c).2, p.trimmedAndPriced = true) ∧
      (body.price.isJSON = true → ∀ p ∈ (patch id body c).2, p.trimmedAndPriced = true)) ∧
    ((∀ p ∈ c, p.valid = true) → body.name.notBlank = true →
      (∀ p ∈ (create now body c).2, p.valid = true) ∧
      (∀ p ∈ (replace id body c).2, p.valid = true) ∧
      (body.price.isJSON = true → ∀ p ∈ (patch id body c).2, p.valid = true)) := by
  constructor
  · intro h
    have h0 : ∀ p ∈ c, noEdgeWhitespace p.name = true ∧ p.price.gt (.fin 0) = true :=
      fun p hp => (trimmedAndPriced_iff p).mp (h p hp)
    have hN : ∀ s, body.name = .string s → noEdgeWhitespace (jsTrim s) = true :=
      fun s _ => noEdgeWhitespace_jsTrim s
    refine ⟨fun p hp => ?_, fun p hp => ?_, fun hj p hp => ?_⟩
    · exact (trimmedAndPriced_iff p).mpr
        (create_keeps (fun s => noEdgeWhitespace s = true) now body c hN h0 p hp)
    · exact (trimmedAndPriced_iff p).mpr
        (replace_keeps (fun s => noEdgeWhitespace s = true) id body c hN h0 p hp)
    · exact (trimmedAndPriced_iff p).mpr
        (patch_keeps (fun s => noEdgeWhitespace s = true) id body c hj hN h0 p hp)
  · intro h hb
    have h0 : ∀ p ∈ c, (p.name.data.isEmpty = false ∧ noEdgeWhitespace p.name = true) ∧
        p.price.gt (.fin 0) = true := fun p hp => (valid_iff p).mp (h p hp)
    have hN : ∀ s, body.name = .string s →
        ((jsTrim s).data.isEmpty = false ∧ noEdgeWhitespace (jsTrim s) = true) :=
      fun s hs => notBlank_string hb s hs
    refine ⟨fun p hp => ?_, fun p hp => ?_, fun hj p hp => ?_⟩
    · exact (valid_iff p).mpr
        (create_keeps (fun s => s.data.isEmpty = false ∧ noEdgeWhitespace s = true)
          now body c hN h0 p hp)
    · exact (valid_iff p).mpr
        (replace_keeps (fun s => s.data.isEmpty = false ∧ noEdgeWhitespace s = true)
          id body c hN h0 p hp)
    · exact (valid_iff p).mpr
        (patch_keeps (fun s => s.data.isEmpty = false ∧ noEdgeWhitespace s = true)
          id body c hj hN h0 p hp)

/-- Witness for C1: the seed collection, the clock value 5, the id 1 and the
body with name " Mouse " and price 999. -/
theorem invariant_kept_witness :
    (∀ p ∈ seed, p.trimmedAndPriced = true) ∧ (∀ p ∈ seed, p.valid = true) ∧
    (JSValue.string " Mouse ").notBlank = true ∧
    (JSValue.number (.fin 999)).isJSON = true ∧
    (∀ p ∈ (create 5 ⟨.string " Mouse ", .number (.fin 999)⟩ seed).2, p.valid = true) ∧
    (∀ p ∈ (replace (.fin 1) ⟨.string " Mouse ", .number (.fin 999)⟩ seed).2,
      p.valid = true) ∧
    (∀ p ∈ (patch (.fin 1) ⟨.string " Mouse ", .number (.fin 999)⟩ seed).2,
      p.valid = true) ∧
    (∀ p ∈ (patch (.fin 1) ⟨.string " Mouse ", .number (.fin 999)⟩ seed).2,
      p.trimmedAndPriced = true) :=
  have hv : ∀ p ∈ seed, p.valid = true := by decide
  have ht : ∀ p ∈ seed, p.trimmedAndPriced = true := by decide
  have hb : (JSValue.string " Mouse ").notBlank = true := by decide
  have hj : (JSValue.number (.fin 999)).isJSON = true := rfl
  have key := invariant_kept 5 (.fin 1) ⟨.string " Mouse ", .number (.fin 999)⟩ seed
  ⟨ht, hv, hb, hj, (key.2 hv hb).1, (key.2 hv hb).2.1, (key.2 hv hb).2.2 hj,
    (key.1 ht).2.2 hj⟩

/-- Counterexample to C1 as stated: on the seed collection, whose products all
satisfy the invariant, create and replace with the name " " (one blank) and
the price 10, and patch with the name "", each leave a product whose name is
empty. -/
theorem invariant_broken_by_blank_name :
    (∀ p ∈ seed, p.valid = true) ∧
    (∃ p ∈ (create 5 ⟨.string " ", .number (.fin 10)⟩ seed).2, p.valid = false) ∧
    (∃ p ∈ (replace (.fin 1) ⟨.string " ", .number (.fin 10)⟩ seed).2, p.valid = false) ∧
    (∃ p ∈ (patch (.fin 1) ⟨.string "", .undefined⟩ seed).2, p.valid = false) := by
  decide

/-! ## Patch and a failed price validation -/

/-- C2, the code at the failing input: PATCH of id 1 on the seed collection
with the name "X" and the price -5 responds 400 and has already renamed the
record, so the collection differs from the one before the call.  With the
price -5 alone (the scenario of the spec) the response is 400 and the
collection is the seed collection. -/
theorem patch_400_after_name_assignment :
    patch (.fin 1) ⟨.string "X", .number (.fin (-5))⟩ seed =
      (.json 400 (.error .priceMustBePositive),
        [ { id := .fin 1, name := "X", price := .fin 24990 },
          { id := .fin 2, name := "Ноутбук UltraBook 15", price := .fin 54990 },
          { id := .fin 3, name := "Планшет Tab S8", price := .fin 35990 },
          { id := .fin 4, name := "Наушники AirSound", price := .fin 4990 } ]) ∧
    (patch (.fin 1) ⟨.string "X", .number (.fin (-5))⟩ seed).2 ≠ seed ∧
    patch (.fin 1) ⟨.undefined, .number (.fin (-5))⟩ seed =
      (.json 400 (.error .priceMustBePositive), seed) := by
  decide

/-! ## Create -/

/-- A body that passes the validation of create has a truthy name and a number
as price, and create answers 201 or throws; so a 201 answer determines the
record and the collection. -/
theorem create_201_inv {now : Int} {body : Body} {c : List Product} {r : Product}
    (h : (create now body c).1 = .json 201 (.product r)) :
    ∃ s price, body.name = .string s ∧ body.price = .number price ∧
      body.passesValidation = true ∧
      r = { id := .fin now, name := jsTrim s, price := price } ∧
      (create now body c).2 = c ++ [r] := by
  unfold create at h ⊢
  unfold Body.passesValidation
  by_cases hreq : (!body.name.truthy || !body.price.truthy) = true
  · simp [hreq] at h
  · simp only [hreq] at h ⊢
    cases hp : body.price with
    | number price =>
      simp only [hp, JSValue.asNumber?] at h ⊢
      by_cases hle : price.le (.fin 0) = true
      · simp [hle] at h
      · simp only [hle] at h ⊢
        cases hn : body.name with
        | string s =>
          simp only [hn, JSValue.trim?] at h ⊢
          simp only [Bool.false_eq_true, if_false, Reply.json.injEq, Payload.product.injEq,
            true_and] at h
          refine ⟨s, price, rfl, rfl, by simp, h.symm, ?_⟩
          simp [h]
        | _ => simp [hn, JSValue.trim?] at h
    | _ => simp [hp, JSValue.asNumber?] at h

/-- A string name and a price that pass the validation give the 201 answer. -/
theorem create_of_valid (now : Int) (body : Body) (c : List Product) (s : String)
    (hname : body.name = .string s) (hvalid : body.passesValidation = true) :
    ∃ price, body.price = .number price ∧
      create now body c =
        (.json 201 (.product { id := .fin now, name := jsTrim s, price := price }),
          c ++ [{ id := .fin now, name := jsTrim s, price := price }]) := by
  unfold Body.passesValidation at hvalid
  simp only [Bool.and_eq_true, Bool.not_eq_true'] at hvalid
  obtain ⟨hreq, hprice⟩ := hvalid
  cases hp : body.price with
  | number price =>
    refine ⟨price, rfl, ?_⟩
    simp only [hp, JSValue.asNumber?, Bool.not_eq_true'] at hprice
    unfold create
    rw [if_neg (by simp [hreq])]
    simp [hp, JSValue.asNumber?, hprice, hname, JSValue.trim?]
  | _ => simp [hp, JSValue.asNumber?] at hprice

theorem find?_append_fresh (f : Product → Bool) (c : List Product) (r : Product)
    (hc : ∀ p ∈ c, f p = false) (hr : f r = true) : (c ++ [r]).find? f = some r := by
  induction c with
  | nil => simp [List.find?, hr]
  | cons a as ih =>
    have ha : f a = false := hc a (List.mem_cons_self _ _)
    simp only [List.cons_append, List.find?, ha]
    exact ih (fun p hp => hc p (List.mem_cons_of_mem _ hp))

/-- C3, as amended.  When create answers 201 with the record `r`, the id of
`r` is the clock value; it differs from the id of every product that was in the
collection before the call provided none of them has the clock value as its
id. -/
theorem create_id_is_clock (now : Int) (body : Body) (c : List Product) (r : Product)
    (h : (create now body c).1 = .json 201 (.product r)) :
    r.id = .fin now ∧ ((∀ p ∈ c, p.id ≠ .fin now) → ∀ p ∈ c, r.id ≠ p.id) := by
  obtain ⟨s, price, -, -, -, hr, -⟩ := create_201_inv h
  have hid : r.id = .fin now := by rw [hr]
  exact ⟨hid, fun hfresh p hp heq => hfresh p hp (by rw [← heq, hid])⟩

/-- Witness for C3: the seed collection, the clock value 1700000000000 and the
body with name "Mouse" and price 999. -/
theorem create_id_is_clock_witness :
    (create 1700000000000 ⟨.string "Mouse", .number (.fin 999)⟩ seed).1 =
      .json 201 (.product { id := .fin 1700000000000, name := "Mouse", price := .fin 999 }) ∧
    (∀ p ∈ seed, p.id ≠ .fin ((1700000000000 : Int) : ℚ)) ∧
    (∀ p ∈ seed,
      ({ id := .fin 1700000000000, name := "Mouse", price := .fin 999 } : Product).id ≠ p.id) :=
  have h : (create 1700000000000 ⟨.string "Mouse", .number (.fin 999)⟩ seed).1 =
      .json 201 (.product { id := .fin 1700000000000, name := "Mouse", price := .fin 999 }) := by
    decide
  have hfresh : ∀ p ∈ seed, p.id ≠ .fin ((1700000000000 : Int) : ℚ) := by decide
  ⟨h, hfresh, (create_id_is_clock 1700000000000 _ seed _ h).2 hfresh⟩

/-- Counterexample to C3 as stated: with the clock value 1 on the seed
collection, create accepts the body with name "Mouse" and price 999 and
returns a record whose id is the id of the first seed product. -/
theorem create_id_collides :
    (create 1 ⟨.string "Mouse", .number (.fin 999)⟩ seed).1 =
      .json 201 (.product { id := .fin 1, name := "Mouse", price := .fin 999 }) ∧
    ∃ p ∈ seed, ({ id := .fin 1, name := "Mouse", price := .fin 999 } : Product).id = p.id := by
  decide

/-- C4.  For a body with a string name and a price that pass the validation of
create, create answers 201 with the record made of the clock value, the
trimmed name and the price; the collection afterwards is the collection before
followed by that record, and the unfiltered list call made next returns exactly
that sequence. -/
theorem create_appends (now : Int) (body : Body) (c : List Product) (s : String)
    (price : JSNumber) (hname : body.name = .string s) (hprice : body.price = .number price)
    (hvalid : body.passesValidation = true) :
    create now body c =
      (.json 201 (.product { id := .fin now, name := jsTrim s, price := price }),
        c ++ [{ id := .fin now, name := jsTrim s, price := price }]) ∧
    (list .absent .absent (create now body c).2).1 =
      .json 200 (.products (c ++ [{ id := .fin now, name := jsTrim s, price := price }])) := by
  obtain ⟨price', hprice', hcreate⟩ := create_of_valid now body c s hname hvalid
  have hpp : price' = price := by
    rw [hprice] at hprice'
    exact (JSValue.number.inj hprice').symm
  subst hpp
  refine ⟨hcreate, ?_⟩
  rw [hcreate]
  rfl

/-- Witness for C4: the seed collection, the clock value 1700000000000 and the
body with name "  Mouse " and price 999. -/
theorem create_appends_witness :
    (⟨.string "  Mouse ", .number (.fin 999)⟩ : Body).passesValidation = true ∧
    create 1700000000000 ⟨.string "  Mouse ", .number (.fin 999)⟩ seed =
      (.json 201 (.product
          { id := .fin ((1700000000000 : Int) : ℚ), name := (jsTrim "  Mouse "),
            price := .fin 999 }),
        seed ++
          [{ id := .fin ((1700000000000 : Int) : ℚ), name := (jsTrim "  Mouse "),
              price := .fin 999 }]) ∧
    jsTrim "  Mouse " = "Mouse" :=
  have hv : (⟨.string "  Mouse ", .number (.fin 999)⟩ : Body).passesValidation = true := by
    decide
  ⟨hv, (create_appends 1700000000000 ⟨.string "  Mouse ", .number (.fin 999)⟩ seed
    "  Mouse " (.fin 999) rfl rfl hv).1, by decide⟩

/-- C5, as amended.  When create answers 201 with the record `r` and no product
of the collection before the call has the clock value as its id, getOne on the
id of `r`, made on the collection create left, answers 200 with `r`. -/
theorem getOne_after_create (now : Int) (body : Body) (c : List Product) (r : Product)
    (h : (create now body c).1 = .json 201 (.product r))
    (hfresh : ∀ p ∈ c, p.id ≠ .fin now) :
    getOne r.id (create now body c).2 = (.json 200 (.product r), (create now body c).2) := by
  obtain ⟨s, price, -, -, -, hr, hc⟩ := create_201_inv h
  have hid : r.id = .fin now := by rw [hr]
  have hfind : ((create now body c).2).find? (fun p => p.id.strictEq r.id) = some r := by
    rw [hc]
    apply find?_append_fresh
    · intro p hp
      cases hs : p.id.strictEq r.id with
      | false => rfl
      | true => exact absurd ((JSNumber.eq_of_strictEq hs).trans hid) (hfresh p hp)
    · rw [hid]
      simp [JSNumber.strictEq]
  unfold getOne
  rw [hfind]

/-- Witness for C5, the scenario of the spec: POST of the name "Mouse" and the
price 999 on the seed collection at the clock value 1700000000000. -/
theorem getOne_after_create_witness :
    (create 1700000000000 ⟨.string "Mouse", .number (.fin 999)⟩ seed).1 =
      .json 201 (.product { id := .fin 1700000000000, name := "Mouse", price := .fin 999 }) ∧
    (∀ p ∈ seed, p.id ≠ .fin ((1700000000000 : Int) : ℚ)) ∧
    getOne (.fin 1700000000000)
        (create 1700000000000 ⟨.string "Mouse", .number (.fin 999)⟩ seed).2 =
      (.json 200 (.product { id := .fin 1700000000000, name := "Mouse", price := .fin 999 }),
        (create 1700000000000 ⟨.string "Mouse", .number (.fin 999)⟩ seed).2) :=
  have h : (create 1700000000000 ⟨.string "Mouse", .number (.fin 999)⟩ seed).1 =
      .json 201 (.product { id := .fin 1700000000000, name := "Mouse", price := .fin 999 }) := by
    decide
  have hfresh : ∀ p ∈ seed, p.id ≠ .fin ((1700000000000 : Int) : ℚ) := by decide
  ⟨h, hfresh, getOne_after_create 1700000000000 _ seed _ h hfresh⟩

/-- Counterexample to C5 as stated: with the clock value 1 on the seed
collection, create answers 201 with the record of id 1 named "Mouse", and
getOne on that id then answers 200 with the first seed product, not with the
created record. -/
theorem getOne_after_create_returns_older :
    (create 1 ⟨.string "Mouse", .number (.fin 999)⟩ seed).1 =
      .json 201 (.product { id := .fin 1, name := "Mouse", price := .fin 999 }) ∧
    (getOne (.fin 1) (create 1 ⟨.string "Mouse", .number (.fin 999)⟩ seed).2).1 =
      .json 200 (.product { id := .fin 1, name := "Смартфон XYZ Pro", price := .fin 24990 }) ∧
    (getOne (.fin 1) (create 1 ⟨.string "Mouse", .number (.fin 999)⟩ seed).2).1 ≠
      .json 200 (.product { id := .fin 1, name := "Mouse", price := .fin 999 }) := by
  decide

/-- The two validations of create.  Create answers 400 with the "name and price
are required" error exactly when name or price is falsy; otherwise it answers
400 with the "price must be a positive number" error exactly when price is not
a number or is `<= 0`; a 400 answer leaves the collection unchanged; a string
name that gets no 400 gets 201. -/
theorem create_validation (now : Int) (body : Body) (c : List Product) :
    ((create now body c).1 = .json 400 (.error .nameAndPriceRequired) ↔
      (body.name.truthy = false ∨ body.price.truthy = false)) ∧
    (body.name.truthy = true → body.price.truthy = true →
      ((create now body c).1 = .json 400 (.error .priceMustBePositive) ↔
        (body.price.asNumber? = none ∨
          ∃ n, body.price.asNumber? = some n ∧ n.le (.fin 0) = true))) ∧
    ((create now body c).1.status? = some 400 → (create now body c).2 = c) ∧
    (∀ s, body.name = .string s → (create now body c).1.status? ≠ some 400 →
      (create now body c).1.status? = some 201) := by
  unfold create
  by_cases hreq : (!body.name.truthy || !body.price.truthy) = true
  · have hor : body.name.truthy = false ∨ body.price.truthy = false := by
      simpa using hreq
    rw [if_pos hreq]
    refine ⟨⟨fun _ => hor, fun _ => rfl⟩, ?_, fun _ => rfl, ?_⟩
    · intro h1 h2
      rcases hor with h | h
      · rw [h1] at h; exact absurd h (by decide)
      · rw [h2] at h; exact absurd h (by decide)
    · intro s _ h
      exact absurd rfl h
  · have hand : body.name.truthy = true ∧ body.price.truthy = true := by
      simpa using hreq
    rw [if_neg hreq]
    cases hp : body.price.asNumber? with
    | none =>
      refine ⟨⟨fun h => ?_, fun h => ?_⟩, fun _ _ => ⟨fun _ => Or.inl rfl, fun _ => rfl⟩,
        fun _ => rfl, fun s _ h => absurd rfl h⟩
      · simp at h
      · rcases h with h | h
        · rw [hand.1] at h; exact absurd h (by decide)
        · rw [hand.2] at h; exact absurd h (by decide)
    | some price =>
      by_cases hle : price.le (.fin 0) = true
      · dsimp only
        rw [if_pos hle]
        refine ⟨⟨fun h => ?_, fun h => ?_⟩,
          fun _ _ => ⟨fun _ => Or.inr ⟨price, rfl, hle⟩, fun _ => rfl⟩,
          fun _ => rfl, fun s _ h => absurd rfl h⟩
        · simp at h
        · rcases h with h | h
          · rw [hand.1] at h; exact absurd h (by decide)
          · rw [hand.2] at h; exact absurd h (by decide)
      · dsimp only
        rw [if_neg hle]
        cases hn : body.name.trim? with
        | none =>
          refine ⟨⟨fun h => ?_, fun h => ?_⟩, fun _ _ => ⟨fun h => ?_, fun h => ?_⟩,
            fun _ => rfl, fun s hs _ => ?_⟩
          · simp at h
          · rcases h with h | h
            · rw [hand.1] at h; exact absurd h (by decide)
            · rw [hand.2] at h; exact absurd h (by decide)
          · simp at h
          · rcases h with h | ⟨n, hn1, hn2⟩
            · simp at h
            · simp only [Option.some.injEq] at hn1
              subst hn1
              exact absurd hn2 hle
          · rw [hs] at hn
            simp [JSValue.trim?] at hn
        | some name =>
          refine ⟨⟨fun h => ?_, fun h => ?_⟩, fun _ _ => ⟨fun h => ?_, fun h => ?_⟩,
            fun h => ?_, fun s _ _ => rfl⟩
          · simp at h
          · rcases h with h | h
            · rw [hand.1] at h; exact absurd h (by decide)
            · rw [hand.2] at h; exact absurd h (by decide)
          · simp at h
          · rcases h with h | ⟨n, hn1, hn2⟩
            · simp at h
            · simp only [Option.some.injEq] at hn1
              subst hn1
              exact absurd hn2 hle
          · simp [Reply.status?] at h

/-- The validations of create at the scenario of the spec: POST of the name ""
and the price 100 on the seed collection answers 400 and leaves the collection
as it was. -/
theorem create_validation_witness :
    (create 5 ⟨.string "", .number (.fin 100)⟩ seed).1 =
      .json 400 (.error .nameAndPriceRequired) ∧
    (create 5 ⟨.string "", .number (.fin 100)⟩ seed).2 = seed :=
  have h := create_validation 5 ⟨.string "", .number (.fin 100)⟩ seed
  have h400 : (create 5 ⟨.string "", .number (.fin 100)⟩ seed).1 =
      .json 400 (.error .nameAndPriceRequired) := h.1.mpr (Or.inl rfl)
  ⟨h400, h.2.2.1 (by rw [h400]; rfl)⟩

/-- C6, the code at the failing input.  The body with the number 5 as name and
the price 10 has a truthy name and a truthy price that is a number `> 0`, so
neither 400 case applies and the claim has create answer 201; create instead
throws on `name.trim()`, sends no response and leaves the collection as it
was. -/
theorem create_throws_on_number_name :
    (JSValue.number (.fin 5)).truthy = true ∧ (JSValue.number (.fin 10)).truthy = true ∧
    (⟨.number (.fin 5), .number (.fin 10)⟩ : Body).passesValidation = true ∧
    create 5 ⟨.number (.fin 5), .number (.fin 10)⟩ seed = (.typeError, seed) ∧
    (create 5 ⟨.number (.fin 5), .number (.fin 10)⟩ seed).1.status? ≠ some 201 := by
  decide

/-! ## List and delete -/

theorem list_eq_narrow (minPrice maxPrice : QueryValue) (c : List Product) :
    list minPrice maxPrice c =
      (.json 200 (.products (narrowByMax maxPrice (narrowByMin minPrice c))), c) := by
  cases minPrice <;> cases maxPrice <;> rfl

theorem narrow_eq_filter (minPrice maxPrice : QueryValue) (c : List Product) :
    narrowByMax maxPrice (narrowByMin minPrice c) =
      c.filter (withinFilters minPrice maxPrice) := by
  have hw : withinFilters minPrice maxPrice = fun p => withinFilters minPrice maxPrice p := rfl
  rw [hw]
  cases minPrice <;> cases maxPrice <;>
    simp [narrowByMax, narrowByMin, withinFilters, List.filter_filter, Bool.and_comm]

theorem narrow_swap_eq_filter (minPrice maxPrice : QueryValue) (c : List Product) :
    narrowByMin minPrice (narrowByMax maxPrice c) =
      c.filter (withinFilters minPrice maxPrice) := by
  have hw : withinFilters minPrice maxPrice = fun p => withinFilters minPrice maxPrice p := rfl
  rw [hw]
  cases minPrice <;> cases maxPrice <;>
    simp [narrowByMax, narrowByMin, withinFilters, List.filter_filter]

theorem delete_200_inv {id : JSNumber} {c : List Product}
    (h : (delete id c).1.status? = some 200) :
    id ≠ .nan ∧ (delete id c).2 = c.filter (fun p => !p.id.strictEq id) := by
  unfold delete at h ⊢
  by_cases hany : c.any (fun p => p.id.strictEq id) = true
  · obtain ⟨p, -, hp⟩ := List.any_eq_true.mp hany
    refine ⟨JSNumber.ne_nan_of_strictEq hp, ?_⟩
    simp [hany]
  · simp [hany, Reply.status?] at h

/-- C7.  When delete answers 200 for an id, no product of the collection it
leaves has that id, however many had it before: getOne on that id then answers
404, and no list call, whatever its filters, returns a product with that
id. -/
theorem delete_removes_id (id : JSNumber) (c : List Product)
    (h : (delete id c).1.status? = some 200) :
    (∀ p ∈ (delete id c).2, p.id ≠ id) ∧
    getOne id (delete id c).2 = (.json 404 (.error .productNotFound), (delete id c).2) ∧
    (∀ minPrice maxPrice ps,
      (list minPrice maxPrice (delete id c).2).1 = .json 200 (.products ps) →
        ∀ p ∈ ps, p.id ≠ id) := by
  obtain ⟨hid, hc⟩ := delete_200_inv h
  have hgone : ∀ p ∈ (delete id c).2, p.id.strictEq id = false := by
    intro p hp
    rw [hc] at hp
    simpa using (List.mem_filter.mp hp).2
  have hne : ∀ p ∈ (delete id c).2, p.id ≠ id := by
    intro p hp heq
    have := JSNumber.strictEq_of_eq hid heq
    rw [hgone p hp] at this
    exact absurd this (by decide)
  refine ⟨hne, ?_, ?_⟩
  · have hfind : ((delete id c).2).find? (fun p => p.id.strictEq id) = none := by
      rw [List.find?_eq_none]
      intro p hp
      simp [hgone p hp]
    unfold getOne
    rw [hfind]
  · intro minPrice maxPrice ps hps p hp
    rw [list_eq_narrow, narrow_eq_filter] at hps
    simp only [Reply.json.injEq, Payload.products.injEq, true_and] at hps
    rw [← hps] at hp
    exact hne p (List.mem_filter.mp hp).1

/-- Witness for C7: the seed collection followed by a second product of id 1,
and DELETE of id 1. -/
theorem delete_removes_id_witness :
    (delete (.fin 1) (seed ++ [{ id := .fin 1, name := "Copy", price := .fin 5 }])).1.status? =
      some 200 ∧
    (∀ p ∈ (delete (.fin 1) (seed ++ [{ id := .fin 1, name := "Copy", price := .fin 5 }])).2,
      p.id ≠ .fin 1) ∧
    (delete (.fin 1) (seed ++ [{ id := .fin 1, name := "Copy", price := .fin 5 }])).2.length = 3 :=
  have h : (delete (.fin 1)
      (seed ++ [{ id := .fin 1, name := "Copy", price := .fin 5 }])).1.status? = some 200 := by
    decide
  ⟨h, (delete_removes_id (.fin 1) _ h).1, by decide⟩

/-- C8.  For an id that no product of the collection has (no product id is
`===` to it), delete answers 404 with the "product not found" error and the
collection afterwards is the collection before. -/
theorem delete_missing (id : JSNumber) (c : List Product)
    (h : ∀ p ∈ c, p.id.strictEq id = false) :
    delete id c = (.json 404 (.error .productNotFound), c) := by
  have hany : c.any (fun p => p.id.strictEq id) = false := by
    rw [List.any_eq_false]
    intro p hp
    simp [h p hp]
  unfold delete
  simp [hany]

/-- Witness for C8, the scenario of the spec: DELETE of id 9999 on the seed
collection. -/
theorem delete_missing_witness :
    (∀ p ∈ seed, p.id.strictEq (.fin 9999) = false) ∧
    delete (.fin 9999) seed = (.json 404 (.error .productNotFound), seed) ∧
    (delete (.fin 9999) seed).2.length = seed.length :=
  have h : ∀ p ∈ seed, p.id.strictEq (.fin 9999) = false := by decide
  ⟨h, delete_missing (.fin 9999) seed h, by rw [delete_missing (.fin 9999) seed h]⟩

/-- C9.  List answers 200 with exactly the products of the collection, in
collection order and with their multiplicity, whose price satisfies both
filters (an absent filter imposing nothing); it leaves the collection
unchanged; and narrowing by the maximum first and by the minimum second gives
the same sequence. -/
theorem list_filters (minPrice maxPrice : QueryValue) (c : List Product) :
    list minPrice maxPrice c =
      (.json 200 (.products (c.filter (withinFilters minPrice maxPrice))), c) ∧
    narrowByMax maxPrice (narrowByMin minPrice c) =
      c.filter (withinFilters minPrice maxPrice) ∧
    narrowByMin minPrice (narrowByMax maxPrice c) =
      narrowByMax maxPrice (narrowByMin minPrice c) := by
  refine ⟨?_, narrow_eq_filter minPrice maxPrice c, ?_⟩
  · rw [list_eq_narrow, narrow_eq_filter]
  · rw [narrow_swap_eq_filter, narrow_eq_filter]

/-- C10.  On the seed collection, list with `minPrice=10000` and
`maxPrice=40000` returns the products of id 1 (24990) and id 3 (35990), in that
order, and nothing else. -/
theorem list_seed_between_10000_and_40000 :
    list (.supplied (.fin 10000)) (.supplied (.fin 40000)) seed =
      (.json 200 (.products
          [ { id := .fin 1, name := "Смартфон XYZ Pro", price := .fin 24990 },
            { id := .fin 3, name := "Планшет Tab S8", price := .fin 35990 } ]),
        seed) := by
  decide

/-! ## The first match: `find`, `findIndex` and assignment in place -/

theorem find?_eq_none_of_forall (f : Product → Bool) (l : List Product)
    (h : ∀ p ∈ l, f p = false) : l.find? f = none := by
  rw [List.find?_eq_none]
  intro p hp
  simp [h p hp]

theorem findIndex_eq_neg_one_of_forall (f : Product → Bool) (l : List Product)
    (h : ∀ p ∈ l, f p = false) : findIndex f l = -1 := by
  induction l with
  | nil => rfl
  | cons a as ih =>
    unfold findIndex
    rw [h a (List.mem_cons_self _ _), ih (fun p hp => h p (List.mem_cons_of_mem _ hp))]
    simp

theorem exists_of_find?_eq_some_or_forall (f : Product → Bool) (l : List Product) :
    (∃ p, l.find? f = some p) ∨ ∀ p ∈ l, f p = false := by
  cases h : l.find? f with
  | some p => exact Or.inl ⟨p, rfl⟩
  | none =>
    right
    intro p hp
    have := List.find?_eq_none.mp h p hp
    simpa using this

/-- What `find`, `findIndex` and an assignment through the found reference agree
on: the first match and its position. -/
theorem firstAt_of_find? (f : Product → Bool) (l : List Product) (p : Product)
    (h : l.find? f = some p) :
    ∃ i, FirstAt f l i p ∧ findIndex f l = (i : Int) ∧
      ∀ g, mutateFirst f g l = l.set i (g p) := by
  induction l with
  | nil => simp at h
  | cons a as ih =>
    by_cases ha : f a = true
    · have hp : a = p := by simpa [List.find?, ha] using h
      subst hp
      refine ⟨0, ⟨by simp, ha, fun j hj => absurd hj (Nat.not_lt_zero j)⟩, ?_, fun g => ?_⟩
      · simp [findIndex, ha]
      · simp [mutateFirst, ha]
    · have ha' : f a = false := by simpa using ha
      have h' : as.find? f = some p := by simpa [List.find?, ha'] using h
      obtain ⟨i, ⟨hget, hfp, hbefore⟩, hidx, hmut⟩ := ih h'
      refine ⟨i + 1, ⟨by simpa using hget, hfp, ?_⟩, ?_, fun g => ?_⟩
      · intro j hj q hq
        cases j with
        | zero =>
          have : a = q := by simpa using hq
          rw [← this]
          exact ha'
        | succ k => exact hbefore k (Nat.lt_of_succ_lt_succ hj) q (by simpa using hq)
      · unfold findIndex
        rw [ha', hidx]
        have hne : ¬ ((i : Int) = -1) := by omega
        simp [hne]
      · simp [mutateFirst, ha', hmut g]

theorem mutateFirst_mutateFirst (f : Product → Bool) (g₁ g₂ : Product → Product)
    (hf : ∀ p, f (g₁ p) = f p) (l : List Product) :
    mutateFirst f g₂ (mutateFirst f g₁ l) = mutateFirst f (fun p => g₂ (g₁ p)) l := by
  induction l with
  | nil => rfl
  | cons a as ih =>
    by_cases ha : f a = true
    · simp [mutateFirst, ha, hf a]
    · simp [mutateFirst, ha, ih]

theorem map_id_mutateFirst (f : Product → Bool) (g : Product → Product)
    (hg : ∀ p, (g p).id = p.id) (l : List Product) :
    (mutateFirst f g l).map Product.id = l.map Product.id := by
  induction l with
  | nil => rfl
  | cons a as ih =>
    by_cases ha : f a = true
    · simp [mutateFirst, ha, hg a]
    · simp [mutateFirst, ha, ih]

theorem map_id_set (l : List Product) (i : Nat) (p r : Product) (hget : l[i]? = some p)
    (hid : r.id = p.id) : (l.set i r).map Product.id = l.map Product.id := by
  induction l generalizing i with
  | nil => rfl
  | cons a as ih =>
    cases i with
    | zero =>
      have : a = p := by simpa using hget
      subst this
      simp [hid]
    | succ k =>
      simp only [List.set_cons_succ, List.map_cons, List.cons.injEq, true_and]
      exact ih k (by simpa using hget)

theorem set_eq_self_of_getElem? (l : List Product) (i : Nat) (p : Product)
    (h : l[i]? = some p) : l.set i p = l := by
  induction l generalizing i with
  | nil => rfl
  | cons a as ih =>
    cases i with
    | zero =>
      have : a = p := by simpa using h
      simp [this]
    | succ k =>
      simp only [List.set_cons_succ, List.cons.injEq, true_and]
      exact ih k (by simpa using h)

theorem getElem?_set_self_of_getElem? (l : List Product) (i : Nat) (p r : Product)
    (h : l[i]? = some p) : (l.set i r)[i]? = some r := by
  have hi : i < l.length := by
    rcases Nat.lt_or_ge i l.length with hlt | hge
    · exact hlt
    · rw [List.getElem?_eq_none hge] at h
      exact absurd h (by simp)
  rw [List.getElem?_set]
  simp [hi]

/-! ## Replace -/

/-- Replace on a body with a string name that passes the validation, when `p`
is the product `find` would return for the id: the answer and the collection
left. -/
theorem replace_of_valid_found (id : JSNumber) (body : Body) (c : List Product) (s : String)
    (price : JSNumber) (p : Product) (hname : body.name = .string s)
    (hprice : body.price = .number price) (hvalid : body.passesValidation = true)
    (hfind : c.find? (fun p => p.id.strictEq id) = some p) :
    ∃ i, FirstAt (fun p => p.id.strictEq id) c i p ∧
      replace id body c =
        (.json 200 (.product { id := id, name := jsTrim s, price := price }),
          c.set i { id := id, name := jsTrim s, price := price }) := by
  obtain ⟨i, hfirst, hidx, -⟩ := firstAt_of_find? _ c p hfind
  refine ⟨i, hfirst, ?_⟩
  unfold Body.passesValidation at hvalid
  simp only [Bool.and_eq_true, Bool.not_eq_true'] at hvalid
  obtain ⟨hreq, hpos⟩ := hvalid
  simp only [hprice, JSValue.asNumber?, Bool.not_eq_true'] at hpos
  have hne : ¬ ((i : Int) = -1) := by omega
  unfold replace
  rw [if_neg (by simp [hreq])]
  simp [hprice, JSValue.asNumber?, hpos, hname, JSValue.trim?, hidx, hne]

/-- C11.  For an id that some product has (some product id is `===` to it) and
a body with a string name and a price that pass the validation, replace answers
200 with the record made of the id, the trimmed name and the price.  The first
position holding the id, whose record had that same id, then holds exactly that
record; every other position holds the record it held; the length is
unchanged. -/
theorem replace_overwrites (id : JSNumber) (body : Body) (c : List Product) (s : String)
    (price : JSNumber) (hname : body.name = .string s) (hprice : body.price = .number price)
    (hvalid : body.passesValidation = true)
    (hex : ∃ p ∈ c, p.id.strictEq id = true) :
    ∃ i p, FirstAt (fun p => p.id.strictEq id) c i p ∧ p.id = id ∧
      replace id body c =
        (.json 200 (.product { id := id, name := jsTrim s, price := price }),
          c.set i { id := id, name := jsTrim s, price := price }) ∧
      (replace id body c).2.length = c.length ∧
      (replace id body c).2[i]? = some { id := id, name := jsTrim s, price := price } ∧
      ∀ j, j ≠ i → (replace id body c).2[j]? = (c)[j]? := by
  obtain ⟨q, hq, hqid⟩ := hex
  rcases exists_of_find?_eq_some_or_forall (fun p => p.id.strictEq id) c with ⟨p, hfind⟩ | hnone
  · obtain ⟨i, hfirst, hrep⟩ := replace_of_valid_found id body c s price p hname hprice hvalid hfind
    refine ⟨i, p, hfirst, JSNumber.eq_of_strictEq hfirst.2.1, hrep, ?_, ?_, ?_⟩
    · rw [hrep]
      simp
    · rw [hrep]
      exact getElem?_set_self_of_getElem? c i p _ hfirst.1
    · intro j hj
      rw [hrep]
      exact List.getElem?_set_ne (Ne.symm hj)
  · rw [hnone q hq] at hqid
    exact absurd hqid (by decide)

/-- Witness for C11: PUT of id 3 on the seed collection with the name
" Tablet " and the price 100. -/
theorem replace_overwrites_witness :
    (⟨.string " Tablet ", .number (.fin 100)⟩ : Body).passesValidation = true ∧
    (∃ p ∈ seed, p.id.strictEq (.fin 3) = true) ∧
    ∃ i p, FirstAt (fun p => p.id.strictEq (.fin 3)) seed i p ∧ p.id = .fin 3 ∧
      replace (.fin 3) ⟨.string " Tablet ", .number (.fin 100)⟩ seed =
        (.json 200 (.product { id := .fin 3, name := (jsTrim " Tablet "), price := .fin 100 }),
          seed.set i { id := .fin 3, name := (jsTrim " Tablet "), price := .fin 100 }) ∧
      (replace (.fin 3) ⟨.string " Tablet ", .number (.fin 100)⟩ seed).2.length = seed.length ∧
      (replace (.fin 3) ⟨.string " Tablet ", .number (.fin 100)⟩ seed).2[i]? =
        some { id := .fin 3, name := (jsTrim " Tablet "), price := .fin 100 } ∧
      ∀ j, j ≠ i →
        (replace (.fin 3) ⟨.string " Tablet ", .number (.fin 100)⟩ seed).2[j]? = seed[j]? :=
  have hv : (⟨.string " Tablet ", .number (.fin 100)⟩ : Body).passesValidation = true := by
    decide
  have hex : ∃ p ∈ seed, p.id.strictEq (.fin 3) = true := by decide
  ⟨hv, hex, replace_overwrites (.fin 3) ⟨.string " Tablet ", .number (.fin 100)⟩ seed
    " Tablet " (.fin 100) rfl rfl hv hex⟩

/-! ## Patch -/

/-- Patch when `find` returns nothing. -/
theorem patch_not_found (id : JSNumber) (body : Body) (c : List Product)
    (h : ∀ p ∈ c, p.id.strictEq id = false) :
    patch id body c = (.json 404 (.error .productNotFound), c) := by
  unfold patch
  rw [find?_eq_none_of_forall _ c h]

/-- Patch when `find` returns `p`, held at position `i`, written with the
position instead of the reference: the four ways to a 200 answer. -/
theorem patch_of_found (id : JSNumber) (body : Body) (c : List Product) (p : Product)
    (hfind : c.find? (fun p => p.id.strictEq id) = some p) :
    ∃ i, FirstAt (fun p => p.id.strictEq id) c i p ∧
      (body.name = .undefined → body.price = .undefined →
        patch id body c = (.json 200 (.product p), c)) ∧
      (∀ n, body.name = .undefined → body.price = .number n → n.le (.fin 0) = false →
        patch id body c =
          (.json 200 (.product { p with price := n }), c.set i { p with price := n })) ∧
      (∀ s, body.name = .string s → body.price = .undefined →
        patch id body c =
          (.json 200 (.product { p with name := jsTrim s }),
            c.set i { p with name := jsTrim s })) ∧
      (∀ s n, body.name = .string s → body.price = .number n → n.le (.fin 0) = false →
        patch id body c =
          (.json 200 (.product { p with name := jsTrim s, price := n }),
            c.set i { p with name := jsTrim s, price := n })) := by
  obtain ⟨i, hfirst, -, hmut⟩ := firstAt_of_find? _ c p hfind
  refine ⟨i, hfirst, ?_, ?_, ?_, ?_⟩
  · intro hn hp
    unfold patch
    rw [hfind]
    simp [hn, hp, JSValue.isDefined]
  · intro n hn hp hle
    unfold patch
    rw [hfind]
    simp [hn, hp, JSValue.isDefined, JSValue.asNumber?, hle, hmut]
  · intro s hn hp
    unfold patch
    rw [hfind]
    simp [hn, hp, JSValue.isDefined, JSValue.trim?, hmut]
  · intro s n hn hp hle
    unfold patch
    rw [hfind]
    simp only [hn, hp, JSValue.isDefined, JSValue.trim?, JSValue.asNumber?, hle, if_true,
      Bool.false_eq_true, if_false]
    rw [mutateFirst_mutateFirst (fun p => p.id.strictEq id)
      (fun p => { p with name := jsTrim s }) (fun p => { p with price := n })
      (fun _ => rfl) c, hmut]

/-- A 200 answer of patch: the body has no name or a string as name, and no
price or a number that is not `<= 0` as price. -/
theorem patch_200_body (id : JSNumber) (body : Body) (c : List Product)
    (h : (patch id body c).1.status? = some 200) :
    (∃ p, c.find? (fun p => p.id.strictEq id) = some p) ∧
    (body.name = .undefined ∨ ∃ s, body.name = .string s) ∧
    (body.price = .undefined ∨ ∃ n, body.price = .number n ∧ n.le (.fin 0) = false) := by
  unfold patch at h
  cases hfind : c.find? (fun p => p.id.strictEq id) with
  | none => simp [hfind, Reply.status?] at h
  | some p =>
    refine ⟨⟨p, rfl⟩, ?_⟩
    rw [hfind] at h
    cases hn : body.name <;> cases hp : body.price <;>
      simp [hn, hp, JSValue.isDefined, JSValue.trim?, JSValue.asNumber?, Reply.status?] at h ⊢ <;>
      (rename_i n; cases hle : n.le (.fin 0) <;> simp_all [Reply.status?])

/-- C12.  When patch answers 200, the targeted record is the first one whose
id is `===` to the requested id, at some position `i`.  The record `q` that
position holds afterwards has the same id; its name is the old one when the
body has no name and the trimmed body name otherwise (a string); its price is
the old one when the body has no price and the body price otherwise (a number);
the answer carries `q`; every other position, and the length, are as
before. -/
theorem patch_frame (id : JSNumber) (body : Body) (c : List Product)
    (h200 : (patch id body c).1.status? = some 200) :
    ∃ i p q, FirstAt (fun p => p.id.strictEq id) c i p ∧ q.id = p.id ∧
      (body.name = .undefined ∨ ∃ s, body.name = .string s) ∧
      (body.name = .undefined → q.name = p.name) ∧
      (∀ s, body.name = .string s → q.name = jsTrim s) ∧
      (body.price = .undefined ∨ ∃ n, body.price = .number n) ∧
      (body.price = .undefined → q.price = p.price) ∧
      (∀ n, body.price = .number n → q.price = n) ∧
      patch id body c = (.json 200 (.product q), c.set i q) ∧
      (patch id body c).2.length = c.length ∧
      (patch id body c).2[i]? = some q ∧
      ∀ j, j ≠ i → (patch id body c).2[j]? = (c)[j]? := by
  obtain ⟨⟨p, hfind⟩, hname, hprice⟩ := patch_200_body id body c h200
  obtain ⟨i, hfirst, hnone, hp, hn, hboth⟩ := patch_of_found id body c p hfind
  have hframe : ∀ q, patch id body c = (.json 200 (.product q), c.set i q) →
      (patch id body c).2.length = c.length ∧ (patch id body c).2[i]? = some q ∧
        ∀ j, j ≠ i → (patch id body c).2[j]? = (c)[j]? := by
    intro q hq
    rw [hq]
    exact ⟨by simp, getElem?_set_self_of_getElem? c i p q hfirst.1,
      fun j hj => List.getElem?_set_ne (Ne.symm hj)⟩
  have hprice' : body.price = .undefined ∨ ∃ n, body.price = .number n := by
    rcases hprice with h | ⟨n, h, -⟩
    · exact Or.inl h
    · exact Or.inr ⟨n, h⟩
  rcases hname with hnm | ⟨s, hnm⟩
  · rcases hprice with hpr | ⟨n, hpr, hle⟩
    · have hq : patch id body c = (.json 200 (.product p), c.set i p) := by
        rw [set_eq_self_of_getElem? c i p hfirst.1]
        exact hnone hnm hpr
      refine ⟨i, p, p, hfirst, rfl, Or.inl hnm, fun _ => rfl, ?_, hprice', fun _ => rfl, ?_,
        hq, hframe p hq⟩
      · intro s hs
        rw [hnm] at hs
        exact absurd hs (by simp)
      · intro n hn'
        rw [hpr] at hn'
        exact absurd hn' (by simp)
    · have hq := hp n hnm hpr hle
      refine ⟨i, p, { p with price := n }, hfirst, rfl, Or.inl hnm, fun _ => rfl, ?_, hprice',
        ?_, ?_, hq, hframe _ hq⟩
      · intro s hs
        rw [hnm] at hs
        exact absurd hs (by simp)
      · intro hu
        rw [hpr] at hu
        exact absurd hu (by simp)
      · intro m hm
        rw [hpr] at hm
        exact JSValue.number.inj hm
  · rcases hprice with hpr | ⟨n, hpr, hle⟩
    · have hq := hn s hnm hpr
      refine ⟨i, p, { p with name := jsTrim s }, hfirst, rfl, Or.inr ⟨s, hnm⟩, ?_, ?_, hprice',
        fun _ => rfl, ?_, hq, hframe _ hq⟩
      · intro hu
        rw [hnm] at hu
        exact absurd hu (by simp)
      · intro t ht
        rw [hnm] at ht
        rw [JSValue.string.inj ht]
      · intro m hm
        rw [hpr] at hm
        exact absurd hm (by simp)
    · have hq := hboth s n hnm hpr hle
      refine ⟨i, p, { p with name := jsTrim s, price := n }, hfirst, rfl, Or.inr ⟨s, hnm⟩,
        ?_, ?_, hprice', ?_, ?_, hq, hframe _ hq⟩
      · intro hu
        rw [hnm] at hu
        exact absurd hu (by simp)
      · intro t ht
        rw [hnm] at ht
        rw [JSValue.string.inj ht]
      · intro hu
        rw [hpr] at hu
        exact absurd hu (by simp)
      · intro m hm
        rw [hpr] at hm
        exact JSValue.number.inj hm

/-- Witness for C12: PATCH of id 2 on the seed collection with the price 100
and no name. -/
theorem patch_frame_witness :
    (patch (.fin 2) ⟨.undefined, .number (.fin 100)⟩ seed).1.status? = some 200 ∧
    ∃ i p q, FirstAt (fun p => p.id.strictEq (.fin 2)) seed i p ∧ q.id = p.id ∧
      ((⟨.undefined, .number (.fin 100)⟩ : Body).name = .undefined ∨
        ∃ s, (⟨.undefined, .number (.fin 100)⟩ : Body).name = .string s) ∧
      ((⟨.undefined, .number (.fin 100)⟩ : Body).name = .undefined → q.name = p.name) ∧
      (∀ s, (⟨.undefined, .number (.fin 100)⟩ : Body).name = .string s → q.name = jsTrim s) ∧
      ((⟨.undefined, .number (.fin 100)⟩ : Body).price = .undefined ∨
        ∃ n, (⟨.undefined, .number (.fin 100)⟩ : Body).price = .number n) ∧
      ((⟨.undefined, .number (.fin 100)⟩ : Body).price = .undefined → q.price = p.price) ∧
      (∀ n, (⟨.undefined, .number (.fin 100)⟩ : Body).price = .number n → q.price = n) ∧
      patch (.fin 2) ⟨.undefined, .number (.fin 100)⟩ seed =
        (.json 200 (.product q), seed.set i q) ∧
      (patch (.fin 2) ⟨.undefined, .number (.fin 100)⟩ seed).2.length = seed.length ∧
      (patch (.fin 2) ⟨.undefined, .number (.fin 100)⟩ seed).2[i]? = some q ∧
      ∀ j, j ≠ i → (patch (.fin 2) ⟨.undefined, .number (.fin 100)⟩ seed).2[j]? = seed[j]? :=
  have h : (patch (.fin 2) ⟨.undefined, .number (.fin 100)⟩ seed).1.status? = some 200 := by
    decide
  ⟨h, patch_frame (.fin 2) ⟨.undefined, .number (.fin 100)⟩ seed h⟩

/-! ## A name that is not a string -/

/-- C13, the code at failing inputs.  On the seed collection, create with the
number 5 as name, replace of id 1 with an empty array as name (each with the
price 10) and patch of id 1 with `null` as name all throw on `name.trim()`:
no response of status 200, 201, 400 or 404 is sent. -/
theorem handlers_throw_on_non_string_name :
    create 5 ⟨.number (.fin 5), .number (.fin 10)⟩ seed = (.typeError, seed) ∧
    replace (.fin 1) ⟨.array [], .number (.fin 10)⟩ seed = (.typeError, seed) ∧
    patch (.fin 1) ⟨.null, .undefined⟩ seed = (.typeError, seed) ∧
    (create 5 ⟨.number (.fin 5), .number (.fin 10)⟩ seed).1.status? = none ∧
    (replace (.fin 1) ⟨.array [], .number (.fin 10)⟩ seed).1.status? = none ∧
    (patch (.fin 1) ⟨.null, .undefined⟩ seed).1.status? = none := by
  refine ⟨rfl, rfl, rfl, rfl, rfl, rfl⟩

/-! ## Get one -/

theorem find?_of_firstAt (f : Product → Bool) (l : List Product) (i : Nat) (p : Product)
    (h : FirstAt f l i p) : l.find? f = some p := by
  induction l generalizing i with
  | nil =>
    obtain ⟨hget, -, -⟩ := h
    simp at hget
  | cons a as ih =>
    obtain ⟨hget, hfp, hbefore⟩ := h
    cases i with
    | zero =>
      have : a = p := by simpa using hget
      subst this
      simp [List.find?, hfp]
    | succ k =>
      have ha : f a = false := hbefore 0 (Nat.succ_pos k) a (by simp)
      simp only [List.find?, ha]
      exact ih k ⟨by simpa using hget, hfp,
        fun j hj q hq => hbefore (j + 1) (Nat.succ_lt_succ hj) q (by simpa using hq)⟩

/-- C14.  getOne leaves the collection unchanged; it answers 404 with the
"product not found" error exactly when no product id is `===` to the given id
(for an id other than `NaN`: exactly when no product has that id); and when a
product has the id it answers 200 with the first such product in collection
order. -/
theorem getOne_first_match (id : JSNumber) (c : List Product) :
    (getOne id c).2 = c ∧
    ((getOne id c).1 = .json 404 (.error .productNotFound) ↔
      ∀ p ∈ c, p.id.strictEq id = false) ∧
    (id ≠ .nan →
      ((getOne id c).1 = .json 404 (.error .productNotFound) ↔ ∀ p ∈ c, p.id ≠ id)) ∧
    (∀ i p, FirstAt (fun p => p.id.strictEq id) c i p →
      (getOne id c).1 = .json 200 (.product p)) ∧
    ((∃ p ∈ c, p.id.strictEq id = true) →
      ∃ i p, FirstAt (fun p => p.id.strictEq id) c i p ∧
        (getOne id c).1 = .json 200 (.product p)) := by
  have h404 : (getOne id c).1 = .json 404 (.error .productNotFound) ↔
      ∀ p ∈ c, p.id.strictEq id = false := by
    constructor
    · intro h
      rcases exists_of_find?_eq_some_or_forall (fun p => p.id.strictEq id) c with ⟨p, hp⟩ | hall
      · unfold getOne at h
        rw [hp] at h
        simp at h
      · exact hall
    · intro hall
      unfold getOne
      rw [find?_eq_none_of_forall _ c hall]
  have h200 : ∀ i p, FirstAt (fun p => p.id.strictEq id) c i p →
      (getOne id c).1 = .json 200 (.product p) := by
    intro i p hfirst
    unfold getOne
    rw [find?_of_firstAt _ c i p hfirst]
  refine ⟨?_, h404, ?_, h200, ?_⟩
  · unfold getOne
    split <;> rfl
  · intro hid
    rw [h404]
    constructor
    · intro hall p hp heq
      have := JSNumber.strictEq_of_eq hid heq
      rw [hall p hp] at this
      exact absurd this (by decide)
    · intro hall p hp
      cases hs : p.id.strictEq id with
      | false => rfl
      | true => exact absurd (JSNumber.eq_of_strictEq hs) (hall p hp)
  · rintro ⟨q, hq, hqid⟩
    rcases exists_of_find?_eq_some_or_forall (fun p => p.id.strictEq id) c with ⟨p, hp⟩ | hall
    · obtain ⟨i, hfirst, -, -⟩ := firstAt_of_find? _ c p hp
      exact ⟨i, p, hfirst, h200 i p hfirst⟩
    · rw [hall q hq] at hqid
      exact absurd hqid (by decide)

/-- Witness for C14: GET of id 3 and of id 9999 on the seed collection followed
by a second product of id 3. -/
theorem getOne_first_match_witness :
    FirstAt (fun p => p.id.strictEq (.fin 3))
      (seed ++ [{ id := .fin 3, name := "Copy", price := .fin 5 }]) 2
      { id := .fin 3, name := "Планшет Tab S8", price := .fin 35990 } ∧
    (getOne (.fin 3) (seed ++ [{ id := .fin 3, name := "Copy", price := .fin 5 }])).1 =
      .json 200 (.product { id := .fin 3, name := "Планшет Tab S8", price := .fin 35990 }) ∧
    (∀ p ∈ seed, p.id.strictEq (.fin 9999) = false) ∧
    (getOne (.fin 9999) seed).1 = .json 404 (.error .productNotFound) :=
  have hfirst : FirstAt (fun p => p.id.strictEq (.fin 3))
      (seed ++ [{ id := .fin 3, name := "Copy", price := .fin 5 }]) 2
      { id := .fin 3, name := "Планшет Tab S8", price := .fin 35990 } := by
    refine ⟨by decide, by decide, ?_⟩
    intro j hj q hq
    have hj' : j = 0 ∨ j = 1 := by omega
    rcases hj' with rfl | rfl
    · have : q = { id := .fin 1, name := "Смартфон XYZ Pro", price := .fin 24990 } := by
        simpa [seed] using hq.symm
      subst this
      decide
    · have : q = { id := .fin 2, name := "Ноутбук UltraBook 15", price := .fin 54990 } := by
        simpa [seed] using hq.symm
      subst this
      decide
  have hnone : ∀ p ∈ seed, p.id.strictEq (.fin 9999) = false := by decide
  ⟨hfirst, (getOne_first_match (.fin 3) _).2.2.2.1 2 _ hfirst, hnone,
    (getOne_first_match (.fin 9999) seed).2.1.mpr hnone⟩

/-! ## Filters that are not numbers -/

theorem filter_ge_nan (l : List Product) : l.filter (fun p => p.price.ge .nan) = [] := by
  rw [List.filter_eq_nil_iff]
  intro p _
  simp [JSNumber.ge, JSNumber.le]

theorem filter_le_nan (l : List Product) : l.filter (fun p => p.price.le .nan) = [] := by
  rw [List.filter_eq_nil_iff]
  intro p _
  cases p.price <;> simp [JSNumber.le]

/-- C15.  A truthy `minPrice` or `maxPrice` whose `Number(...)` is `NaN` makes
list answer 200 with the empty sequence, whatever the other filter is; an
absent filter and an empty-string filter impose nothing, the answer being the
collection narrowed by the other filter alone. -/
theorem list_nan_filter (minPrice maxPrice : QueryValue) (c : List Product) :
    list (.supplied .nan) maxPrice c = (.json 200 (.products []), c) ∧
    list minPrice (.supplied .nan) c = (.json 200 (.products []), c) ∧
    list .absent maxPrice c = (.json 200 (.products (narrowByMax maxPrice c)), c) ∧
    list .empty maxPrice c = (.json 200 (.products (narrowByMax maxPrice c)), c) ∧
    list minPrice .absent c = (.json 200 (.products (narrowByMin minPrice c)), c) ∧
    list minPrice .empty c = (.json 200 (.products (narrowByMin minPrice c)), c) := by
  refine ⟨?_, ?_, ?_, ?_, ?_, ?_⟩
  · rw [list_eq_narrow]
    simp only [narrowByMin, filter_ge_nan]
    cases maxPrice <;> simp [narrowByMax]
  · rw [list_eq_narrow]
    simp only [narrowByMax, filter_le_nan]
  · rw [list_eq_narrow]
    rfl
  · rw [list_eq_narrow]
    rfl
  · rw [list_eq_narrow]
    rfl
  · rw [list_eq_narrow]
    rfl

/-! ## Error precedence of the two updates -/

/-- C16.  For an id that no product has (no product id is `===` to it):
replace answers 400 exactly when the body fails the validation and 404 with
the "product not found" error exactly when the body passes it; patch answers
404 with that error for every body; both leave the collection unchanged. -/
theorem update_error_precedence (id : JSNumber) (body : Body) (c : List Product)
    (h : ∀ p ∈ c, p.id.strictEq id = false) :
    ((replace id body c).1.status? = some 400 ↔ body.passesValidation = false) ∧
    ((replace id body c).1 = .json 404 (.error .productNotFound) ↔
      body.passesValidation = true) ∧
    (replace id body c).2 = c ∧
    patch id body c = (.json 404 (.error .productNotFound), c) := by
  have hidx := findIndex_eq_neg_one_of_forall (fun p => p.id.strictEq id) c h
  refine ⟨?_, ?_, ?_, patch_not_found id body c h⟩
  all_goals
    unfold replace
    try unfold Body.passesValidation
    by_cases hreq : (!body.name.truthy || !body.price.truthy) = true
    · simp [hreq, Reply.status?]
    · rw [if_neg hreq]
      have hreq' : (!body.name.truthy || !body.price.truthy) = false := by simpa using hreq
      cases hp : body.price.asNumber? with
      | none => simp [hreq', Reply.status?]
      | some price =>
        by_cases hle : price.le (.fin 0) = true
        · simp [hreq', hle, Reply.status?]
        · simp [hreq', hle, hidx, Reply.status?]

/-- Witness for C16: id 9999 on the seed collection, with the name "X" and the
price -5, a body that fails the validation. -/
theorem update_error_precedence_witness :
    (∀ p ∈ seed, p.id.strictEq (.fin 9999) = false) ∧
    (⟨.string "X", .number (.fin (-5))⟩ : Body).passesValidation = false ∧
    (replace (.fin 9999) ⟨.string "X", .number (.fin (-5))⟩ seed).1.status? = some 400 ∧
    (replace (.fin 9999) ⟨.string "X", .number (.fin (-5))⟩ seed).2 = seed ∧
    patch (.fin 9999) ⟨.string "X", .number (.fin (-5))⟩ seed =
      (.json 404 (.error .productNotFound), seed) :=
  have h : ∀ p ∈ seed, p.id.strictEq (.fin 9999) = false := by decide
  have hv : (⟨.string "X", .number (.fin (-5))⟩ : Body).passesValidation = false := by decide
  have key := update_error_precedence (.fin 9999) ⟨.string "X", .number (.fin (-5))⟩ seed h
  ⟨h, hv, key.1.mpr hv, key.2.2.1, key.2.2.2⟩

/-! ## The sequence of ids -/

theorem replace_ids (id : JSNumber) (body : Body) (c : List Product) :
    (replace id body c).2.map Product.id = c.map Product.id := by
  unfold replace
  split
  · rfl
  · split
    · rfl
    · rename_i price hprice
      split
      · rfl
      · dsimp only
        split
        · rfl
        · rename_i hidx
          split
          · rfl
          · rename_i name hname
            rcases exists_of_find?_eq_some_or_forall (fun p => p.id.strictEq id) c with
              ⟨p, hp⟩ | hall
            · obtain ⟨i, hfirst, hi, -⟩ := firstAt_of_find? _ c p hp
              rw [hi]
              exact map_id_set c i p _ hfirst.1 (JSNumber.eq_of_strictEq hfirst.2.1).symm
            · exact absurd (findIndex_eq_neg_one_of_forall _ c hall) hidx

theorem patch_ids (id : JSNumber) (body : Body) (c : List Product) :
    (patch id body c).2.map Product.id = c.map Product.id := by
  have hname : ∀ name,
      (mutateFirst (fun p => p.id.strictEq id) (fun p => { p with name := name }) c).map
        Product.id = c.map Product.id :=
    fun name => map_id_mutateFirst (fun p => p.id.strictEq id)
      (fun p => { p with name := name }) (fun _ => rfl) c
  have hprice : ∀ (l : List Product) (price : JSNumber),
      (mutateFirst (fun p => p.id.strictEq id) (fun p => { p with price := price }) l).map
        Product.id = l.map Product.id :=
    fun l price => map_id_mutateFirst (fun p => p.id.strictEq id)
      (fun p => { p with price := price }) (fun _ => rfl) l
  unfold patch
  split
  · rfl
  · by_cases hdef : body.name.isDefined = true
    · simp only [hdef, if_true]
      cases htrim : body.name.trim? with
      | none => rfl
      | some name =>
        simp only
        split
        · split
          · exact hname name
          · split
            · exact hname name
            · rw [hprice, hname]
        · exact hname name
    · simp only [hdef]
      simp only [Bool.false_eq_true, if_false]
      split
      · split
        · rfl
        · split
          · rfl
          · rw [hprice]
      · rfl

theorem delete_ids_sublist (id : JSNumber) (c : List Product) :
    ((delete id c).2.map Product.id).Sublist (c.map Product.id) := by
  unfold delete
  dsimp only
  split
  · exact List.Sublist.refl _
  · exact List.Sublist.map _ (List.filter_sublist c)

/-- C17.  Replace and patch leave the sequence of ids of the collection exactly
as it was, whatever the request; delete leaves a subsequence of it; so pairwise
distinct ids stay pairwise distinct through each of the three. -/
theorem ids_kept (id : JSNumber) (body : Body) (c : List Product) :
    (replace id body c).2.map Product.id = c.map Product.id ∧
    (patch id body c).2.map Product.id = c.map Product.id ∧
    ((delete id c).2.map Product.id).Sublist (c.map Product.id) ∧
    ((c.map Product.id).Nodup →
      ((replace id body c).2.map Product.id).Nodup ∧
      ((patch id body c).2.map Product.id).Nodup ∧
      ((delete id c).2.map Product.id).Nodup) := by
  refine ⟨replace_ids id body c, patch_ids id body c, delete_ids_sublist id c, fun hnd => ?_⟩
  refine ⟨?_, ?_, List.Nodup.sublist (delete_ids_sublist id c) hnd⟩
  · rw [replace_ids]
    exact hnd
  · rw [patch_ids]
    exact hnd

/-- Witness for C17: the seed collection, whose ids are pairwise distinct, the
id 2 and the body with name "X" and price 7. -/
theorem ids_kept_witness :
    (seed.map Product.id).Nodup ∧
    ((replace (.fin 2) ⟨.string "X", .number (.fin 7)⟩ seed).2.map Product.id).Nodup ∧
    ((patch (.fin 2) ⟨.string "X", .number (.fin 7)⟩ seed).2.map Product.id).Nodup ∧
    ((delete (.fin 2) seed).2.map Product.id).Nodup :=
  have hnd : (seed.map Product.id).Nodup := by decide
  ⟨hnd, (ids_kept (.fin 2) ⟨.string "X", .number (.fin 7)⟩ seed).2.2.2 hnd⟩

/-! ## Delete -/

theorem filter_ne_of_not_mem (id : JSNumber) (l : List Product)
    (h : ∀ p ∈ l, p.id ≠ id) : l.filter (fun p => decide (p.id ≠ id)) = l := by
  rw [List.filter_eq_self]
  intro p hp
  simpa using h p hp

theorem length_filter_ne_of_nodup (id : JSNumber) (l : List Product)
    (hnd : (l.map Product.id).Nodup) (hex : ∃ p ∈ l, p.id = id) :
    (l.filter (fun p => decide (p.id ≠ id))).length + 1 = l.length := by
  induction l with
  | nil =>
    obtain ⟨p, hp, -⟩ := hex
    simp at hp
  | cons a as ih =>
    rw [List.map_cons, List.nodup_cons] at hnd
    by_cases ha : a.id = id
    · have hrest : ∀ p ∈ as, p.id ≠ id := by
        intro p hp heq
        apply hnd.1
        rw [ha, ← heq]
        exact List.mem_map_of_mem _ hp
      rw [List.filter_cons_of_neg (by simpa using ha), filter_ne_of_not_mem id as hrest]
      rfl
    · have hex' : ∃ p ∈ as, p.id = id := by
        obtain ⟨p, hp, hpid⟩ := hex
        rcases List.mem_cons.mp hp with rfl | hp
        · exact absurd hpid ha
        · exact ⟨p, hp, hpid⟩
      rw [List.filter_cons_of_pos (by simpa using ha)]
      simp only [List.length_cons]
      rw [ih hnd.2 hex']

theorem filter_strictEq_eq_filter_ne (id : JSNumber) (hid : id ≠ .nan) (l : List Product) :
    l.filter (fun p => !p.id.strictEq id) = l.filter (fun p => decide (p.id ≠ id)) := by
  apply List.filter_congr
  intro p _
  cases hs : p.id.strictEq id with
  | true => simp [JSNumber.eq_of_strictEq hs]
  | false =>
    have hne : p.id ≠ id := by
      intro heq
      have := JSNumber.strictEq_of_eq hid heq
      rw [hs] at this
      exact absurd this (by decide)
    simp [hne]

/-- C18.  When delete answers 200, the answer carries the requested id as
`deletedId` and the collection afterwards is the collection before without the
products of that id, the others in their order; when the ids of the collection
are pairwise distinct its length has decreased by exactly 1. -/
theorem delete_200_effect (id : JSNumber) (c : List Product)
    (h : (delete id c).1.status? = some 200) :
    (delete id c).1 = .json 200 (.deleted id) ∧
    (delete id c).2 = c.filter (fun p => decide (p.id ≠ id)) ∧
    ((c.map Product.id).Nodup → (delete id c).2.length + 1 = c.length) := by
  obtain ⟨hid, hc⟩ := delete_200_inv h
  have hc' : (delete id c).2 = c.filter (fun p => decide (p.id ≠ id)) := by
    rw [hc, filter_strictEq_eq_filter_ne id hid c]
  have hany : c.any (fun p => p.id.strictEq id) = true := by
    cases hany : c.any (fun p => p.id.strictEq id) with
    | true => rfl
    | false =>
      unfold delete at h
      simp [hany, Reply.status?] at h
  refine ⟨?_, hc', fun hnd => ?_⟩
  · unfold delete
    simp [hany]
  · rw [hc']
    obtain ⟨p, hp, hpid⟩ := List.any_eq_true.mp hany
    exact length_filter_ne_of_nodup id c hnd ⟨p, hp, JSNumber.eq_of_strictEq hpid⟩

/-- Witness for C18: DELETE of id 2 on the seed collection. -/
theorem delete_200_effect_witness :
    (delete (.fin 2) seed).1.status? = some 200 ∧ (seed.map Product.id).Nodup ∧
    (delete (.fin 2) seed).1 = .json 200 (.deleted (.fin 2)) ∧
    (delete (.fin 2) seed).2 = seed.filter (fun p => decide (p.id ≠ .fin 2)) ∧
    (delete (.fin 2) seed).2.length + 1 = seed.length :=
  have h : (delete (.fin 2) seed).1.status? = some 200 := by decide
  have hnd : (seed.map Product.id).Nodup := by decide
  have key := delete_200_effect (.fin 2) seed h
  ⟨h, hnd, key.1, key.2.1, key.2.2 hnd⟩

/-! ## A full update and a patch of both fields -/

theorem firstAt_unique (f : Product → Bool) (l : List Product) (i j : Nat) (p q : Product)
    (hi : FirstAt f l i p) (hj : FirstAt f l j q) : i = j := by
  rcases Nat.lt_trichotomy i j with hlt | heq | hgt
  · have := hj.2.2 i hlt p hi.1
    rw [hi.2.1] at this
    exact absurd this (by decide)
  · exact heq
  · have := hi.2.2 j hgt q hj.1
    rw [hj.2.1] at this
    exact absurd this (by decide)

theorem JSNumber.not_le_zero_of_gt {n : JSNumber} (h : n.gt (.fin 0) = true) :
    n.le (.fin 0) = false ∧ n.truthy = true := by
  cases n with
  | nan => simp [JSNumber.gt] at h
  | negInf => simp [JSNumber.gt] at h
  | posInf => exact ⟨rfl, rfl⟩
  | fin q =>
    have hq : 0 < q := by simpa [JSNumber.gt] using h
    exact ⟨by simpa [JSNumber.le] using hq, by simpa [JSNumber.truthy] using ne_of_gt hq⟩

theorem passesValidation_of_nonempty_positive (body : Body) (s : String) (price : JSNumber)
    (hname : body.name = .string s) (hne : s ≠ "") (hprice : body.price = .number price)
    (hpos : price.gt (.fin 0) = true) : body.passesValidation = true := by
  obtain ⟨hle, htruthy⟩ := JSNumber.not_le_zero_of_gt hpos
  have hdata : s.data ≠ [] := by
    intro h0
    apply hne
    cases s
    simp_all
  unfold Body.passesValidation
  simp [hname, hprice, JSValue.truthy, JSValue.asNumber?, hle, htruthy, hdata]

theorem replace_of_valid_not_found (id : JSNumber) (body : Body) (c : List Product)
    (hvalid : body.passesValidation = true) (h : ∀ p ∈ c, p.id.strictEq id = false) :
    replace id body c = (.json 404 (.error .productNotFound), c) := by
  have hidx := findIndex_eq_neg_one_of_forall (fun p => p.id.strictEq id) c h
  unfold Body.passesValidation at hvalid
  simp only [Bool.and_eq_true, Bool.not_eq_true'] at hvalid
  obtain ⟨hreq, hpos⟩ := hvalid
  unfold replace
  rw [if_neg (by simp [hreq])]
  cases hp : body.price.asNumber? with
  | none => simp [hp] at hpos
  | some price =>
    simp only [hp, Bool.not_eq_true'] at hpos
    simp [hpos, hidx]

/-- C19.  For a body whose name is a non-empty string and whose price is a
number `> 0`, replace and patch, called with the same id on the same
collection, give the same answer and leave the same collection. -/
theorem replace_eq_patch (id : JSNumber) (body : Body) (c : List Product) (s : String)
    (price : JSNumber) (hname : body.name = .string s) (hne : s ≠ "")
    (hprice : body.price = .number price) (hpos : price.gt (.fin 0) = true) :
    replace id body c = patch id body c := by
  have hvalid := passesValidation_of_nonempty_positive body s price hname hne hprice hpos
  rcases exists_of_find?_eq_some_or_forall (fun p => p.id.strictEq id) c with ⟨p, hfind⟩ | hall
  · obtain ⟨i, hi, hrep⟩ := replace_of_valid_found id body c s price p hname hprice hvalid hfind
    obtain ⟨j, hj, -, -, -, hboth⟩ := patch_of_found id body c p hfind
    have hij : i = j := firstAt_unique _ c i j p p hi hj
    have hid : p.id = id := JSNumber.eq_of_strictEq hi.2.1
    rw [hrep, hboth s price hname hprice (JSNumber.not_le_zero_of_gt hpos).1, hij, hid]
  · rw [replace_of_valid_not_found id body c hvalid hall, patch_not_found id body c hall]

/-- Witness for C19: id 4 on the seed collection, with the name " Headset "
and the price 1500. -/
theorem replace_eq_patch_witness :
    (" Headset " : String) ≠ "" ∧ (JSNumber.fin 1500).gt (.fin 0) = true ∧
    replace (.fin 4) ⟨.string " Headset ", .number (.fin 1500)⟩ seed =
      patch (.fin 4) ⟨.string " Headset ", .number (.fin 1500)⟩ seed ∧
    (patch (.fin 4) ⟨.string " Headset ", .number (.fin 1500)⟩ seed).1 =
      .json 200 (.product { id := .fin 4, name := "Headset", price := .fin 1500 }) :=
  have hne : (" Headset " : String) ≠ "" := by decide
  have hpos : (JSNumber.fin 1500).gt (.fin 0) = true := by decide
  ⟨hne, hpos, replace_eq_patch (.fin 4) ⟨.string " Headset ", .number (.fin 1500)⟩ seed
    " Headset " (.fin 1500) rfl hne rfl hpos, by decide⟩

end ProductService
